import Mathlib

/-
  Verification development for the prowdig build-log parser and aggregators
  (src/main.go).  Text is modelled as lists of characters; a line is a
  `List Char` without newline characters.  Go's fallible functions return
  `Except`/`Option`; a Go runtime panic (out-of-range index or slice) is
  modelled by an explicit result constructor.
-/

set_option maxRecDepth 1000000

namespace Prowdig

/-- A line of text, without the terminating newline. -/
abbrev Line := List Char

/-- The 30-dash separator that closes a ginkgo failure block
    (literal from parseBuildLog / parseGinkgoBlock). -/
def dashSep : Line := "------------------------------".toList

/-- The start-of-block marker prefix (literal from parseBuildLog). -/
def failureMarker : Line := "• Failure".toList

/-- One raw failure block, as produced by the segmenter
    (struct ginkgoBlock in main.go). -/
structure ginkgoBlock where
  line : Nat
  lines : List Line
deriving DecidableEq, Repr

/-- Model of Go regexp rmAnsiColors final bytes, the character class [mGK]. -/
def ansiFinal (c : Char) : Bool := c = 'm' || c = 'G' || c = 'K'

/-- Length of the match of rmAnsiColors, regexp ESC [ params [mGK] with
    params optional digits(1-3) and an optional semicolon plus digits(1-2),
    at the head of the input; none when the regexp does not match here. -/
def matchAnsiAt : List Char → Option Nat
  | '\x1b' :: '[' :: t =>
    let d1 := (t.takeWhile Char.isDigit).length
    if d1 = 0 then
      match t with
      | c :: _ => if ansiFinal c then some 3 else none
      | [] => none
    else if 3 < d1 then none
    else
      match t.drop d1 with
      | ';' :: t2 =>
        let d2 := (t2.takeWhile Char.isDigit).length
        if 1 ≤ d2 ∧ d2 ≤ 2 then
          match t2.drop d2 with
          | c :: _ => if ansiFinal c then some (2 + d1 + 1 + d2 + 1) else none
          | [] => none
        else none
      | c :: _ => if ansiFinal c then some (2 + d1 + 1) else none
      | [] => none
  | _ => none

/-- Fuelled scan for rmAnsiColors.ReplaceAll(buildLog, ""): remove every
    match, continue after it.  The fuel is the input length, enough since
    every step consumes at least one character. -/
def stripAnsiGo : Nat → List Char → List Char
  | 0, s => s
  | _ + 1, [] => []
  | fuel + 1, c :: rest =>
    match matchAnsiAt (c :: rest) with
    | some n => stripAnsiGo fuel ((c :: rest).drop n)
    | none => c :: stripAnsiGo fuel rest

/-- Removal of ANSI color escape sequences, as rmAnsiColors.ReplaceAll. -/
def stripAnsi (s : List Char) : List Char := stripAnsiGo s.length s

/-- Drop a trailing carriage return (dropCR in bufio.ScanLines). -/
def dropCR (l : Line) : Line := if l.getLast? = some '\r' then l.dropLast else l

/-- Accumulating worker for splitLines; acc holds the current line reversed. -/
def splitLinesAux : List Char → List Char → List Line
  | [], acc => if acc = [] then [] else [dropCR acc.reverse]
  | '\n' :: rest, acc => dropCR acc.reverse :: splitLinesAux rest []
  | c :: rest, acc => splitLinesAux rest (c :: acc)

/-- Split a text into lines the way bufio.Scanner with ScanLines does:
    split at newlines, strip one optional carriage return per line, and
    return a final unterminated line only when it is nonempty. -/
def splitLines (s : List Char) : List Line := splitLinesAux s []

/-- The scanner loop of parseBuildLog.  State: current line number,
    isContent flag, buffered body, emitted blocks.  On end of input with an
    open block the function fails carrying the line number that the Go code
    reports in its error message. -/
def plLoop (lineNo : Nat) (isContent : Bool) (body : List Line)
    (blocks : List ginkgoBlock) : List Line → Except Nat (List ginkgoBlock)
  | [] => if isContent then .error lineNo else .ok blocks
  | l :: rest =>
    let n := lineNo + 1
    let c := if !isContent && failureMarker.isPrefixOf l then true else isContent
    let body1 := if c then body ++ [l] else body
    if c ∧ l = dashSep then
      plLoop n false [] (blocks ++ [⟨n, body1⟩]) rest
    else
      plLoop n c body1 blocks rest

/-- Model of parseBuildLog: strip ANSI codes, scan line by line. -/
def parseBuildLog (buildLog : List Char) : Except Nat (List ginkgoBlock) :=
  plLoop 0 false [] [] (splitLines (stripAnsi buildLog))

instance {ε α : Type} [DecidableEq ε] [DecidableEq α] : DecidableEq (Except ε α) := fun x y =>
  match x, y with
  | .ok a, .ok b =>
    if h : a = b then .isTrue (by rw [h]) else .isFalse (fun hh => h (Except.ok.inj hh))
  | .error a, .error b =>
    if h : a = b then .isTrue (by rw [h]) else .isFalse (fun hh => h (Except.error.inj hh))
  | .ok _, .error _ => .isFalse (fun hh => Except.noConfusion hh)
  | .error _, .ok _ => .isFalse (fun hh => Except.noConfusion hh)

/-- Test outcome (the Go string type status with its three constants). -/
inductive status where
  | passed
  | failed
  | error
deriving DecidableEq, Repr

/-- Structured content of one block (struct parsedGinkgoBlock in main.go). -/
structure parsedGinkgoBlock where
  name : Line
  status : status
  duration : Int
  errStr : Line
  errLoc : Line
deriving DecidableEq, Repr

/-- Result of parseGinkgoBlock: a parsed record, a parse error, or a Go
    runtime panic from an out-of-range index or slice. -/
inductive PGB where
  | ok (r : parsedGinkgoBlock)
  | err
  | oob
deriving DecidableEq, Repr

/-- Go strings.TrimPrefix: drop the prefix when present, else unchanged. -/
def goTrimPrefix (s p : Line) : Line := if p.isPrefixOf s then s.drop p.length else s

/-- Go strings.TrimSuffix: drop the suffix when present, else unchanged. -/
def goTrimSuffix (s sfx : Line) : Line :=
  if sfx.isSuffixOf s then s.take (s.length - sfx.length) else s

/-- Repeated spaces, strings.Repeat of a single space. -/
def spaces (n : Nat) : Line := List.replicate n ' '

/-- The word Failure, first alternative of reGingkoBlockHeader group 1. -/
def failureWord : Line := "Failure".toList

/-- The phrase opening the second alternative of reGingkoBlockHeader. -/
def setupWord : Line := "Failure in Spec Setup".toList

/-- The trailing marker stripped from description lines. -/
def itSuffix : Line := " [It]".toList

/-- The literal line opening a diagnostic value dump. -/
def unexpectedErrLine : Line := "Unexpected error:".toList

/-- Match of the bracketed-duration tail of reGingkoBlockHeader, the part
    space [ digits . digits space, at the head of the input.  Returns the
    digit group before the decimal point (capture group 2). -/
def matchBracketDur : Line → Option Line
  | c1 :: c2 :: t =>
    if c1 = ' ' ∧ c2 = '[' then
      let d := t.takeWhile Char.isDigit
      if d = [] then none else
      match t.drop d.length with
      | c3 :: t2 =>
        if c3 = '.' then
          let f := t2.takeWhile Char.isDigit
          if f = [] then none else
          match t2.drop f.length with
          | c4 :: _ => if c4 = ' ' then some d else none
          | [] => none
        else none
      | [] => none
    else none
  | _ => none

/-- Greedy search used for the dot-star in the Setup alternative: the
    consumed span before the last position where the bracketed duration
    matches, together with that duration's digit group. -/
def lastBracket : Line → Option (Line × Line)
  | [] => none
  | c :: rest =>
    match lastBracket rest with
    | some (u, d) => some (c :: u, d)
    | none =>
      match matchBracketDur (c :: rest) with
      | some d => some ([], d)
      | none => none

/-- Match of reGingkoBlockHeader at the head of the input, leftmost-first
    semantics: the bullet and a space, then alternative 1 (the word Failure
    followed directly by the bracketed duration) before alternative 2 (the
    Setup phrase, a greedy dot-star, then the bracketed duration).  Returns
    capture groups 1 and 2. -/
def matchHeaderAt : Line → Option (Line × Line)
  | c1 :: c2 :: t =>
    if c1 = '•' ∧ c2 = ' ' then
      (if failureWord.isPrefixOf t then
        match matchBracketDur (t.drop failureWord.length) with
        | some d => some (failureWord, d)
        | none => none
      else none) <|>
      (if setupWord.isPrefixOf t then
        match lastBracket (t.drop setupWord.length) with
        | some (u, d) => some (setupWord ++ u, d)
        | none => none
      else none)
    else none
  | _ => none

/-- FindStringSubmatch for reGingkoBlockHeader: try every start position,
    leftmost first. -/
def findHeader : Line → Option (Line × Line)
  | [] => none
  | c :: rest =>
    match matchHeaderAt (c :: rest) with
    | some r => some r
    | none => findHeader rest

/-- Numeric value of a digit character. -/
def digitVal (c : Char) : Nat := c.toNat - 48

/-- Value of a string of decimal digits. -/
def natOfDigits (ds : Line) : Nat := ds.foldl (fun a c => 10 * a + digitVal c) 0

/-- Go strconv.Atoi restricted to strings of decimal digits: the numeric
    value when it fits a signed 64-bit integer, none otherwise (Atoi
    reports a range error past that) and none on the empty string. -/
def goAtoi (ds : Line) : Option Int :=
  if ds = [] then none
  else if natOfDigits ds ≤ 2 ^ 63 - 1 then some (natOfDigits ds) else none

/-- Match of the regexp isParen, spaces then a closing brace at end of
    line, at the head of the input. -/
def isParenTail : Line → Bool
  | [] => false
  | [c] => c = '\x7d'
  | c :: rest => c = ' ' && isParenTail rest

/-- MatchString for isParen: some start position matches. -/
def isParenMatch : Line → Bool
  | [] => false
  | c :: rest => isParenTail (c :: rest) || isParenMatch rest

/-- Guard of one iteration of the name-hierarchy walk at index i: the walk
    continues while index i+1 is still inside the list and lines i and i+1
    both carry at least i leading spaces. -/
def walkCond (ls : List Line) (i : Nat) : Prop :=
  i < ls.length - 1 ∧ (spaces i).isPrefixOf (ls.getD i [])
    ∧ (spaces i).isPrefixOf (ls.getD (i + 1) [])

instance (ls : List Line) (i : Nat) : Decidable (walkCond ls i) :=
  inferInstanceAs (Decidable (_ ∧ _ ∧ _))

/-- Fuelled worker for the name-hierarchy walk; the guard caps the index
    below the list length, so any fuel of at least that length never runs
    out. -/
def nameWalkF (ls : List Line) : Nat → Nat → Nat × List Line
  | 0, i => (i, [])
  | fuel + 1, i =>
    if walkCond ls i then
      let r := nameWalkF ls fuel (i + 2)
      (r.1, goTrimPrefix (goTrimSuffix (ls.getD i []) itSuffix) (spaces i) :: r.2)
    else (i, [])

/-- The name-hierarchy walk of parseGinkgoBlock: from index i, while both
    line i and line i+1 carry at least i leading spaces, collect line i
    with the indentation and one trailing It-marker removed, stepping by
    two.  Returns the stop index and the collected parts. -/
def nameWalk (ls : List Line) (i : Nat) : Nat × List Line := nameWalkF ls ls.length i

/-- First index whose line matches isParen (the dump-closing scan). -/
def firstParenIdx (ls : List Line) : Option Nat := ls.findIdx? isParenMatch

/-- Model of parseGinkgoBlock (main.go).  Every Go slice or index
    operation that can go out of range is modelled explicitly and yields
    PGB.oob exactly when Go would panic. -/
def parseGinkgoBlock (block : ginkgoBlock) : PGB :=
  if block.lines.length < 2 then .err
  else
    match findHeader (block.lines.getD 0 []) with
    | none => .err
    | some (phrase, digits) =>
      match (if setupWord.isPrefixOf phrase then some status.error
             else if phrase = failureWord then some status.failed
             else none : Option status) with
      | none => .err
      | some st =>
        match goAtoi digits with
        | none => .err
        | some duration =>
          if block.lines.getLast? ≠ some dashSep then .err
          else
            let ls := (block.lines.drop 1).dropLast
            let w := nameWalk ls 0
            if w.1 = 0 then .err
            else
              let name := List.intercalate [' '] w.2
              if w.1 ≥ ls.length then .ok ⟨name, st, duration, [], []⟩
              else
                let indent := spaces (w.1 - 2)
                let sec0 := ls.drop w.1
                let sec1 := if sec0.getD 0 [] = ([] : Line) then sec0.drop 1 else sec0
                let sec := sec1.map (fun l => goTrimPrefix l indent)
                match sec.getLast? with
                | none => .oob
                | some lst =>
                  let errLoc := goTrimPrefix lst indent
                  if sec.length < 2 then .oob
                  else
                    let body := sec.take (sec.length - 2)
                    match body with
                    | [] => .oob
                    | b0 :: _ =>
                      if b0 = unexpectedErrLine then
                        match firstParenIdx body with
                        | none =>
                          .ok ⟨name, st, duration,
                            List.intercalate ['\n']
                              (body.map (fun l => goTrimPrefix l (spaces 4))), errLoc⟩
                        | some k =>
                          if k + 1 ≤ body.length - 1 then
                            let body2 := (body.drop (k + 1)).dropLast
                            .ok ⟨name, st, duration,
                              List.intercalate ['\n']
                                (body2.map (fun l => goTrimPrefix l (spaces 4))), errLoc⟩
                          else .oob
                      else
                        .ok ⟨name, st, duration, List.intercalate ['\n'] body, errLoc⟩

/-- One canonical test result (struct ginkgoResult in main.go), restricted
    to the fields the aggregators read. -/
structure ginkgoResult where
  Name : String
  Status : status
  Duration : Int
  Err : String
deriving DecidableEq, Repr

/-- Association-list lookup, modelling a read of a Go map. -/
def lookupA {β : Type} : List (String × β) → String → Option β
  | [], _ => none
  | (k, v) :: rest, n => if k = n then some v else lookupA rest n

/-- Association-list write, modelling a store into a Go map. -/
def updateA {β : Type} : List (String × β) → String → β → List (String × β)
  | [], k, v => [(k, v)]
  | (k1, v1) :: rest, k, v =>
    if k1 = k then (k1, v) :: rest else (k1, v1) :: updateA rest k v

/-- Wrap of a mathematical integer to a signed 64-bit value, as Go
    arithmetic on int does. -/
def wrap64 (x : Int) : Int := (x + 2 ^ 63) % 2 ^ 64 - 2 ^ 63

/-- Per-name maxima tracked by computeStatsMaxDuration (its local type max). -/
structure maxPair where
  success : Int
  failed : Int
deriving DecidableEq, Repr

/-- One entry of the max-duration report (struct StatsMaxDuration). -/
structure StatsMaxDuration where
  Name : String
  MaxDurationPassed : Int
  MaxDurationFailed : Int
deriving DecidableEq, Repr

/-- One iteration of the accumulation loop of computeStatsMaxDuration:
    first-seen names are appended to the order list and given a zero entry,
    then the entry's per-status maximum is raised when exceeded. -/
def mdStep (st : List String × List (String × maxPair)) (t : ginkgoResult) :
    List String × List (String × maxPair) :=
  let names := if lookupA st.2 t.Name = none then st.1 ++ [t.Name] else st.1
  let m0 := if lookupA st.2 t.Name = none then updateA st.2 t.Name ⟨0, 0⟩ else st.2
  let cur := (lookupA m0 t.Name).getD ⟨0, 0⟩
  let cur1 :=
    match t.Status with
    | .passed => if cur.success < t.Duration then ⟨t.Duration, cur.failed⟩ else cur
    | .failed => if cur.failed < t.Duration then ⟨cur.success, t.Duration⟩ else cur
    | .error => cur
  (names, updateA m0 t.Name cur1)

/-- Sort key of computeStatsMaxDuration's comparator: the 64-bit value of
    maxFailed minus maxPassed for the given name. -/
def mdKey (m : List (String × maxPair)) (n : String) : Int :=
  wrap64 (((lookupA m n).getD ⟨0, 0⟩).failed - ((lookupA m n).getD ⟨0, 0⟩).success)

/-- Ordering induced by computeStatsMaxDuration's less function.  Go's
    sort.Slice guarantees only that the result is a permutation ordered by
    the comparator (it is explicitly not guaranteed stable); insertion sort
    realizes that contract here. -/
def mdLe (m : List (String × maxPair)) (a b : String) : Prop := mdKey m a ≤ mdKey m b

instance (m : List (String × maxPair)) : DecidableRel (mdLe m) :=
  fun a b => inferInstanceAs (Decidable (mdKey m a ≤ mdKey m b))

/-- Model of computeStatsMaxDuration (main.go): accumulate per-name maxima
    in first-seen order, drop names that never failed, sort ascending by
    maxFailed minus maxPassed, and report one entry per remaining name. -/
def computeStatsMaxDuration (results : List ginkgoResult) : List StatsMaxDuration :=
  let st := results.foldl mdStep ([], [])
  let names2 := st.1.filter (fun n => ((lookupA st.2 n).getD ⟨0, 0⟩).failed ≠ 0)
  let sorted := List.insertionSort (mdLe st.2) names2
  sorted.map (fun n =>
    ⟨n, ((lookupA st.2 n).getD ⟨0, 0⟩).success, ((lookupA st.2 n).getD ⟨0, 0⟩).failed⟩)

/-- Per-name counters tracked by computeStatsMostFailures (its local type
    count): passed occurrences and the failure messages in input order. -/
structure cntPair where
  passed : Nat
  failed : List String
deriving DecidableEq, Repr

/-- One entry of the most-failures report (struct StatsMostFailures). -/
structure StatsMostFailures where
  Name : String
  CountPassed : Nat
  CountFailed : Nat
  Errors : List String
deriving DecidableEq, Repr

/-- One iteration of the accumulation loop of computeStatsMostFailures:
    records whose status is neither failed nor passed are skipped outright;
    otherwise first-seen names get a zero entry and the entry is bumped. -/
def cmfStep (st : List String × List (String × cntPair)) (t : ginkgoResult) :
    List String × List (String × cntPair) :=
  if t.Status ≠ status.failed ∧ t.Status ≠ status.passed then st
  else
    let names := if lookupA st.2 t.Name = none then st.1 ++ [t.Name] else st.1
    let m0 := if lookupA st.2 t.Name = none then updateA st.2 t.Name ⟨0, []⟩ else st.2
    let cur := (lookupA m0 t.Name).getD ⟨0, []⟩
    let cur1 :=
      match t.Status with
      | .passed => ⟨cur.passed + 1, cur.failed⟩
      | .failed => ⟨cur.passed, cur.failed ++ [t.Err]⟩
      | .error => cur
    (names, updateA m0 t.Name cur1)

/-- Ordering induced by computeStatsMostFailures' less function, ascending
    count of failures. -/
def cmfLe (m : List (String × cntPair)) (a b : String) : Prop :=
  ((lookupA m a).getD ⟨0, []⟩).failed.length ≤ ((lookupA m b).getD ⟨0, []⟩).failed.length

instance (m : List (String × cntPair)) : DecidableRel (cmfLe m) :=
  fun a b =>
    inferInstanceAs
      (Decidable (((lookupA m a).getD ⟨0, []⟩).failed.length ≤
        ((lookupA m b).getD ⟨0, []⟩).failed.length))

/-- Model of computeStatsMostFailures (main.go): accumulate counters over
    passed and failed records only, sort names ascending by failure count,
    skip names with no failures, and report the rest.  As for MaxDuration,
    the sort realizes sort.Slice's contract with insertion sort. -/
def computeStatsMostFailures (results : List ginkgoResult) : List StatsMostFailures :=
  let st := results.foldl cmfStep ([], [])
  let sorted := List.insertionSort (cmfLe st.2) st.1
  (sorted.filter (fun n => ((lookupA st.2 n).getD ⟨0, []⟩).failed ≠ [])).map (fun n =>
    ⟨n, ((lookupA st.2 n).getD ⟨0, []⟩).passed,
      ((lookupA st.2 n).getD ⟨0, []⟩).failed.length,
      ((lookupA st.2 n).getD ⟨0, []⟩).failed⟩)

/-- Reference definition, following the specification's words: the maximum
    durationSeconds among the failed-status records carrying the given
    name, with baseline 0. -/
def maxFailedDuration (results : List ginkgoResult) (n : String) : Int :=
  (results.filter (fun t => t.Name = n ∧ t.Status = status.failed)).foldl
    (fun a t => max a t.Duration) 0

/-- Reference definition: the maximum durationSeconds among the
    passed-status records carrying the given name, with baseline 0. -/
def maxPassedDuration (results : List ginkgoResult) (n : String) : Int :=
  (results.filter (fun t => t.Name = n ∧ t.Status = status.passed)).foldl
    (fun a t => max a t.Duration) 0

instance (m : List (String × maxPair)) : IsTotal String (mdLe m) :=
  ⟨fun a b => le_total (mdKey m a) (mdKey m b)⟩

instance (m : List (String × maxPair)) : IsTrans String (mdLe m) :=
  ⟨fun _ _ _ hab hbc => le_trans hab hbc⟩

/-- Invariant carried through computeStatsMaxDuration's accumulation loop:
    the order list holds each seen name once, in first-seen order, the map
    holds exactly the seen names, and each entry's fields are the
    per-status maxima over the processed prefix. -/
def mdInv (processed : List ginkgoResult)
    (st : List String × List (String × maxPair)) : Prop :=
  st.1.Nodup ∧
  (∀ n, n ∈ st.1 ↔ n ∈ processed.map ginkgoResult.Name) ∧
  (∀ n, (lookupA st.2 n).isSome = true ↔ n ∈ st.1) ∧
  (∀ n, ((lookupA st.2 n).getD ⟨0, 0⟩).failed = maxFailedDuration processed n) ∧
  (∀ n, ((lookupA st.2 n).getD ⟨0, 0⟩).success = maxPassedDuration processed n)

/-- The trimmed residual error section that parseGinkgoBlock works on, by
    the same stages as parseGinkgoBlock itself: none when some gate before
    the error section fails or when the name walk consumes every line, and
    otherwise the lines after the walk's stop index, a leading blank line
    removed, each line with the section indentation stripped. -/
def pgbSection (block : ginkgoBlock) : Option (List Line) :=
  if block.lines.length < 2 then none
  else
    match findHeader (block.lines.getD 0 []) with
    | none => none
    | some (phrase, digits) =>
      match (if setupWord.isPrefixOf phrase then some status.error
             else if phrase = failureWord then some status.failed
             else none : Option status) with
      | none => none
      | some _ =>
        match goAtoi digits with
        | none => none
        | some _ =>
          if block.lines.getLast? ≠ some dashSep then none
          else
            let ls := (block.lines.drop 1).dropLast
            let w := nameWalk ls 0
            if w.1 = 0 then none
            else if w.1 ≥ ls.length then none
            else
              let indent := spaces (w.1 - 2)
              let sec0 := ls.drop w.1
              let sec1 := if sec0.getD 0 [] = ([] : Line) then sec0.drop 1 else sec0
              some (sec1.map (fun l => goTrimPrefix l indent))

/-- Concrete build log with one well-formed block opening at line 1 and
    closing at line 3. -/
def sampleLogA : List Char :=
  "• Failure [1.0 seconds]\nx\n------------------------------".toList

/-- Concrete build log whose single block opens at line 1 and never
    closes; the input has two lines. -/
def sampleLogB : List Char := "• Failure [1.0 seconds]\nx".toList

/-- Concrete build log with noise, then two back-to-back blocks closing at
    lines 3 and 5. -/
def sampleLogC : List Char :=
  "noise\n• Failure [2.0 seconds]\n------------------------------\n• Failure [3.5 seconds]\n------------------------------\n".toList

/-- Concrete block whose two description lines are empty, so the name walk
    succeeds once yet collects an empty part. -/
def emptyNameBlock : ginkgoBlock :=
  ⟨4, ["• Failure [1.0 seconds]".toList, [], [], dashSep]⟩

/-- Concrete block whose residual error section holds a single line after
    the blank-line strip, on which Go's slice lines[0 : len-2] panics. -/
def panicBlock : ginkgoBlock :=
  ⟨6, ["• Failure [1.0 seconds]".toList, "a".toList, "b".toList, [],
    "x".toList, dashSep]⟩

/-- Concrete block used to witness the round-trip header property. -/
def headerBlockW : ginkgoBlock :=
  ⟨3, ["• Failure [12.5 seconds]".toList, "a".toList, "b".toList, dashSep]⟩

/-- Concrete fixture block from section 8 of the specification. -/
def spec8Block : ginkgoBlock :=
  ⟨1, ["• Failure [0.510 seconds]".toList,
    "[cert-manager] Approval CertificateRequests".toList,
    "test/e2e/framework/framework.go:283".toList,
    "  a service account with the approve permissions for cluster scoped issuers.example.io/* should be able to deny requests [It]".toList,
    "  test/e2e/suite/approval/approval.go:225".toList,
    [],
    "  Unexpected error:".toList,
    "      <*errors.StatusError | 0xc0015c0a00>: \x7b ... \x7d".toList,
    "  admission webhook \"webhook.cert-manager.io\" denied the request: spec.issuerRef: Forbidden: referenced signer resource does not exist: \x7btest-issuer Issuer bycbn.example.io\x7d".toList,
    "  occurred".toList,
    [],
    "  test/e2e/suite/approval/approval.go:233".toList,
    dashSep]⟩

/-- Expected parse of the section-8 fixture block, as the specification
    states it. -/
def spec8Expected : parsedGinkgoBlock :=
  ⟨"[cert-manager] Approval CertificateRequests a service account with the approve permissions for cluster scoped issuers.example.io/* should be able to deny requests".toList,
    status.failed, 0,
    "admission webhook \"webhook.cert-manager.io\" denied the request: spec.issuerRef: Forbidden: referenced signer resource does not exist: \x7btest-issuer Issuer bycbn.example.io\x7d".toList,
    "test/e2e/suite/approval/approval.go:233".toList⟩

/-- Concrete result list used to witness the aggregation properties. -/
def resultsW : List ginkgoResult :=
  [⟨"t1", status.passed, 10, ""⟩,
    ⟨"t1", status.failed, 12, "boom"⟩,
    ⟨"t2", status.failed, 3, "oops"⟩,
    ⟨"t2", status.error, 99, "setup"⟩,
    ⟨"t3", status.passed, 7, ""⟩]

/-- Concrete block with no residual error section, used to witness the
    safety property of the block parser. -/
def okBlockW : ginkgoBlock :=
  ⟨9, ["• Failure [4.2 seconds]".toList, "outer".toList, "loc.go:1".toList, dashSep]⟩

/-- A header line of the plain-failure form: bullet, the word Failure, a
    bracketed duration D.F, then arbitrary tail text. -/
def headerFailedLine (D F tail : Line) : Line :=
  '•' :: ' ' :: (failureWord ++ (' ' :: '[' :: (D ++ '.' :: (F ++ ' ' :: tail))))

/-- A header line of the failure-in-setup form: bullet, the Setup phrase,
    arbitrary suffix text, a bracketed duration D.F, then tail text. -/
def headerSetupLine (sfx D F tail : Line) : Line :=
  '•' :: ' ' :: (setupWord ++ (sfx ++ (' ' :: '[' :: (D ++ '.' :: (F ++ ' ' :: tail)))))

/-- Well-formedness of one emitted block relative to the line sequence it
    was scanned from: the line field points one past the last line of a
    run that ends with the dash separator, the buffered lines are exactly
    that contiguous run, the run starts with the failure marker and ends
    with the separator. -/
def segBlockOk (ls : List Line) (b : ginkgoBlock) : Prop :=
  1 ≤ b.line ∧ b.line ≤ ls.length ∧ ls.getD (b.line - 1) [] = dashSep ∧
  b.lines ≠ [] ∧ b.lines.getLast? = some dashSep ∧
  failureMarker.isPrefixOf (b.lines.getD 0 []) ∧
  b.lines = (ls.take b.line).drop (b.line - b.lines.length)

lemma segBlockOk_append (ls extra : List Line) (b : ginkgoBlock)
    (h : segBlockOk ls b) : segBlockOk (ls ++ extra) b := by
  obtain ⟨h1, h2, h3, h4, h5, h6, h7⟩ := h
  refine ⟨h1, by simp; omega, ?_, h4, h5, h6, ?_⟩
  · rw [List.getD_eq_getElem?_getD, List.getElem?_append_left (by omega),
      ← List.getD_eq_getElem?_getD]
    exact h3
  · rw [List.take_append_of_le_length h2]
    exact h7

/-- Well-formedness of the block emitted when the dash line closes an open
    block whose buffer is the contiguous run body1 ending at the current
    position. -/
lemma segBlockOk_emit (processed : List Line) (l : Line) (body1 : List Line)
    (hld : l = dashSep) (hne : body1 ≠ [])
    (hmk : failureMarker.isPrefixOf (body1.getD 0 []))
    (hlast : body1.getLast? = some l)
    (hctg : body1 = (processed ++ [l]).drop ((processed ++ [l]).length - body1.length)) :
    segBlockOk (processed ++ [l]) ⟨processed.length + 1, body1⟩ := by
  refine ⟨Nat.succ_le_succ (Nat.zero_le _), by simp, ?_, hne,
    by rw [hlast, hld], hmk, ?_⟩
  · show (processed ++ [l]).getD (processed.length + 1 - 1) [] = dashSep
    have h1 : processed.length + 1 - 1 = processed.length := by omega
    rw [h1, List.getD_eq_getElem?_getD, List.getElem?_append_right (by omega)]
    simp [hld]
  · show body1 = ((processed ++ [l]).take (processed.length + 1)).drop
      (processed.length + 1 - body1.length)
    have h2 : (processed ++ [l]).take (processed.length + 1) = processed ++ [l] := by
      apply List.take_of_length_le
      simp
    rw [h2]
    have h3 : (processed ++ [l]).length = processed.length + 1 := by simp
    rw [← h3]
    exact hctg

/-- Contiguity of the buffer is preserved by appending the current line to
    both the buffer and the processed prefix. -/
lemma drop_snoc_contig (processed : List Line) (l : Line) (body : List Line)
    (_hle : body.length ≤ processed.length)
    (hctg : body = processed.drop (processed.length - body.length)) :
    body ++ [l] = (processed ++ [l]).drop
      ((processed ++ [l]).length - (body ++ [l]).length) := by
  have hk : (processed ++ [l]).length - (body ++ [l]).length
      = processed.length - body.length := by simp
  rw [hk, List.drop_append_eq_append_drop]
  have h0 : processed.length - body.length - processed.length = 0 := by omega
  rw [h0]
  simp only [List.drop_zero]
  conv_lhs => rw [hctg]

lemma plLoop_ok_inv (rest : List Line) :
    ∀ (processed : List Line) (c : Bool) (body : List Line)
      (acc out : List ginkgoBlock),
      (c = false → body = []) →
      (c = true → body ≠ [] ∧ failureMarker.isPrefixOf (body.getD 0 []) ∧
        body.length ≤ processed.length ∧
        body = processed.drop (processed.length - body.length)) →
      (∀ b ∈ acc, segBlockOk processed b) →
      plLoop processed.length c body acc rest = .ok out →
      ∀ b ∈ out, segBlockOk (processed ++ rest) b := by
  induction rest with
  | nil =>
    intro processed c body acc out hF hT hacc hrun b hb
    cases c with
    | false =>
      simp only [plLoop, if_neg (by simp : ¬(false = true))] at hrun
      cases hrun
      simpa using hacc b hb
    | true => simp [plLoop] at hrun
  | cons l rest2 ih =>
    intro processed c body acc out hF hT hacc hrun b hb
    have hassoc : processed ++ l :: rest2 = (processed ++ [l]) ++ rest2 := by simp
    rw [hassoc]
    have hlen : (processed ++ [l]).length = processed.length + 1 := by simp
    have hmono : ∀ bb ∈ acc, segBlockOk (processed ++ [l]) bb :=
      fun bb hbb => segBlockOk_append _ _ _ (hacc bb hbb)
    cases c with
    | true =>
      obtain ⟨hne, hmk, hle, hctg⟩ := hT rfl
      have hmk1 : failureMarker.isPrefixOf ((body ++ [l]).getD 0 []) := by
        cases body with
        | nil => exact absurd rfl hne
        | cons x xs => simpa using hmk
      have hctg1 := drop_snoc_contig processed l body hle hctg
      by_cases hl : l = dashSep
      · subst hl
        have hrun2 : plLoop (processed.length + 1) false []
            (acc ++ [⟨processed.length + 1, body ++ [dashSep]⟩]) rest2 = .ok out := by
          simpa [plLoop] using hrun
        refine ih (processed ++ [dashSep]) false [] _ out (fun _ => rfl) (by simp)
          ?_ (by rw [hlen]; exact hrun2) b hb
        intro bb hbb
        rcases List.mem_append.1 hbb with hbb | hbb
        · exact hmono bb hbb
        · have hbbe : bb = ⟨processed.length + 1, body ++ [dashSep]⟩ := by
            simpa using hbb
          subst hbbe
          exact segBlockOk_emit processed dashSep (body ++ [dashSep]) rfl (by simp)
            hmk1 (List.getLast?_concat body) hctg1
      · have hrun2 : plLoop (processed.length + 1) true (body ++ [l]) acc rest2
            = .ok out := by
          simpa [plLoop, hl] using hrun
        refine ih (processed ++ [l]) true (body ++ [l]) acc out (by simp)
          (fun _ => ⟨by simp, hmk1, by rw [hlen]; simpa using Nat.succ_le_succ hle,
            hctg1⟩) hmono (by rw [hlen]; exact hrun2) b hb
    | false =>
      have hbe : body = [] := hF rfl
      subst hbe
      by_cases hp : failureMarker <+: l
      · by_cases hl : l = dashSep
        · subst hl
          have hctg1 : [dashSep] = (processed ++ [dashSep]).drop
              ((processed ++ [dashSep]).length - ([dashSep] : List Line).length) := by
            simp
          have hrun2 : plLoop (processed.length + 1) false []
              (acc ++ [⟨processed.length + 1, [dashSep]⟩]) rest2 = .ok out := by
            simpa [plLoop, hp] using hrun
          refine ih (processed ++ [dashSep]) false [] _ out (fun _ => rfl) (by simp)
            ?_ (by rw [hlen]; exact hrun2) b hb
          intro bb hbb
          rcases List.mem_append.1 hbb with hbb | hbb
          · exact hmono bb hbb
          · have hbbe : bb = ⟨processed.length + 1, [dashSep]⟩ := by simpa using hbb
            subst hbbe
            exact segBlockOk_emit processed dashSep [dashSep] rfl (by simp)
              (by simpa using hp) (by simp) hctg1
        · have hctg1 : [l] = (processed ++ [l]).drop
              ((processed ++ [l]).length - ([l] : List Line).length) := by
            simp
          have hrun2 : plLoop (processed.length + 1) true [l] acc rest2 = .ok out := by
            simpa [plLoop, hp, hl] using hrun
          refine ih (processed ++ [l]) true [l] acc out (by simp)
            (fun _ => ⟨by simp, by simpa using hp, by simp, hctg1⟩)
            hmono (by rw [hlen]; exact hrun2) b hb
      · have hrun2 : plLoop (processed.length + 1) false [] acc rest2 = .ok out := by
          simpa [plLoop, hp] using hrun
        exact ih (processed ++ [l]) false [] acc out (fun _ => rfl) (by simp)
          hmono (by rw [hlen]; exact hrun2) b hb

lemma parseBuildLog_blocks_ok (s : List Char) (out : List ginkgoBlock)
    (h : parseBuildLog s = .ok out) :
    ∀ b ∈ out, segBlockOk (splitLines (stripAnsi s)) b := by
  intro b hb
  have hinv := plLoop_ok_inv (splitLines (stripAnsi s)) [] false [] [] out
    (fun _ => rfl) (fun hx => nomatch hx)
    (fun bb hbb => absurd hbb (List.not_mem_nil bb)) h b hb
  simpa using hinv

/-- Claim C1, counterexample: on this input the single emitted block
    carries startLine 3, the line number of the closing dash separator,
    while the block's opening marker line is line 1 (line 3 does not start
    with the marker), so startLine is not the opening line number. -/
theorem claim1_counterexample :
    parseBuildLog sampleLogA =
      Except.ok [⟨3, ["• Failure [1.0 seconds]".toList, "x".toList, dashSep]⟩] ∧
    failureMarker.isPrefixOf ((splitLines (stripAnsi sampleLogA)).getD 0 []) ∧
    ¬ failureMarker.isPrefixOf ((splitLines (stripAnsi sampleLogA)).getD 2 []) := by
  decide

/-- Claim C1, amended: each block emitted by parseBuildLog carries line
    equal to the 1-based line number of the block's closing 30-dash
    separator in the ANSI-stripped input (not of its opening marker); in
    particular back-to-back blocks carry their respective separator line
    numbers. -/
theorem claim1_amended (s : List Char) (out : List ginkgoBlock)
    (h : parseBuildLog s = Except.ok out) :
    ∀ b ∈ out, 1 ≤ b.line ∧ b.line ≤ (splitLines (stripAnsi s)).length ∧
      (splitLines (stripAnsi s)).getD (b.line - 1) [] = dashSep := by
  intro b hb
  obtain ⟨h1, h2, h3, _⟩ := parseBuildLog_blocks_ok s out h b hb
  exact ⟨h1, h2, h3⟩

/-- Witness for the amended claim C1, at an input with two back-to-back
    blocks closing at lines 3 and 5. -/
theorem claim1_amended_witness :
    (splitLines (stripAnsi sampleLogC)).getD 2 [] = dashSep ∧
    (splitLines (stripAnsi sampleLogC)).getD 4 [] = dashSep := by
  have h : parseBuildLog sampleLogC = Except.ok
      [⟨3, ["• Failure [2.0 seconds]".toList, dashSep]⟩,
        ⟨5, ["• Failure [3.5 seconds]".toList, dashSep]⟩] := by decide
  exact ⟨(claim1_amended sampleLogC _ h
      ⟨3, ["• Failure [2.0 seconds]".toList, dashSep]⟩ (by simp)).2.2,
    (claim1_amended sampleLogC _ h
      ⟨5, ["• Failure [3.5 seconds]".toList, dashSep]⟩ (by simp)).2.2⟩

/-- Claim C8: the code does fail on an unterminated block and emits no
    partial block, but the line number it reports is the last line of the
    input, not the opening line of the block as both the specification and
    the error message's own wording state.  On this two-line input the
    block opens at line 1 (the only marker line), yet the error reports
    line 2. -/
theorem claim8_bug :
    parseBuildLog sampleLogB = Except.error 2 ∧
    failureMarker.isPrefixOf ((splitLines (stripAnsi sampleLogB)).getD 0 []) ∧
    ¬ failureMarker.isPrefixOf ((splitLines (stripAnsi sampleLogB)).getD 1 []) ∧
    (splitLines (stripAnsi sampleLogB)).length = 2 := by
  decide

/-- Claim C9, counterexample: the 30-dash separator line is an element of
    the emitted block's lines (its last element), contradicting the claim
    that lines runs only up to the end marker exclusive. -/
theorem claim9_counterexample :
    parseBuildLog sampleLogC = Except.ok
      [⟨3, ["• Failure [2.0 seconds]".toList, dashSep]⟩,
        ⟨5, ["• Failure [3.5 seconds]".toList, dashSep]⟩] ∧
    dashSep ∈ ["• Failure [2.0 seconds]".toList, dashSep] := by
  decide

/-- Claim C9, amended: each emitted block's lines is exactly the
    contiguous run of ANSI-stripped input lines from the start-marker line
    (inclusive) to the closing 30-dash end-marker line, the end marker
    included as the final element (the Block Parser strips it). -/
theorem claim9_amended (s : List Char) (out : List ginkgoBlock)
    (h : parseBuildLog s = Except.ok out) :
    ∀ b ∈ out, b.lines ≠ [] ∧
      failureMarker.isPrefixOf (b.lines.getD 0 []) ∧
      b.lines.getLast? = some dashSep ∧
      b.lines = ((splitLines (stripAnsi s)).take b.line).drop
        (b.line - b.lines.length) := by
  intro b hb
  obtain ⟨_, _, _, h4, h5, h6, h7⟩ := parseBuildLog_blocks_ok s out h b hb
  exact ⟨h4, h6, h5, h7⟩

/-- Witness for the amended claim C9: the block of sampleLogA is the
    contiguous run of lines 1 to 3 of the input, ending with the dash
    separator. -/
theorem claim9_amended_witness :
    (["• Failure [1.0 seconds]".toList, "x".toList, dashSep] : List Line).getLast?
      = some dashSep ∧
    (["• Failure [1.0 seconds]".toList, "x".toList, dashSep] : List Line) =
      ((splitLines (stripAnsi sampleLogA)).take 3).drop 0 := by
  have h : parseBuildLog sampleLogA = Except.ok
      [⟨3, ["• Failure [1.0 seconds]".toList, "x".toList, dashSep]⟩] := by decide
  have happ := claim9_amended sampleLogA _ h
    ⟨3, ["• Failure [1.0 seconds]".toList, "x".toList, dashSep]⟩ (by simp)
  exact ⟨happ.2.2.1, happ.2.2.2⟩

lemma nameWalkF_fst_ge (ls : List Line) :
    ∀ (fuel i : Nat), i ≤ (nameWalkF ls fuel i).1 := by
  intro fuel
  induction fuel with
  | zero => intro i; simp [nameWalkF]
  | succ n ihn =>
    intro i
    by_cases hw : walkCond ls i
    · simp only [nameWalkF, if_pos hw]
      have := ihn (i + 2)
      omega
    · simp [nameWalkF, if_neg hw]

lemma nameWalk_fst_zero_iff (ls : List Line) :
    (nameWalk ls 0).1 = 0 ↔ (nameWalk ls 0).2 = [] := by
  unfold nameWalk
  cases hL : ls.length with
  | zero => simp [nameWalkF]
  | succ n =>
    by_cases hw : walkCond ls 0
    · simp only [nameWalkF, if_pos hw, Nat.zero_add]
      constructor
      · intro h0
        have hge := nameWalkF_fst_ge ls n 2
        omega
      · intro h0
        exact absurd h0 (by simp)
    · simp [nameWalkF, if_neg hw]

lemma parseGinkgoBlock_ok_inv (b : ginkgoBlock) (r : parsedGinkgoBlock)
    (h : parseGinkgoBlock b = .ok r) :
    2 ≤ b.lines.length ∧
    ∃ ph dg, findHeader (b.lines.getD 0 []) = some (ph, dg) ∧
      goAtoi dg = some r.duration ∧
      r.status = (if setupWord.isPrefixOf ph then status.error else status.failed) ∧
      (¬ (setupWord.isPrefixOf ph : Prop) → ph = failureWord) ∧
      b.lines.getLast? = some dashSep ∧
      (nameWalk ((b.lines.drop 1).dropLast) 0).1 ≠ 0 ∧
      (nameWalk ((b.lines.drop 1).dropLast) 0).2 ≠ [] ∧
      r.name = List.intercalate [' '] (nameWalk ((b.lines.drop 1).dropLast) 0).2 := by
  unfold parseGinkgoBlock at h
  split at h
  · exact absurd h (by simp)
  · split at h
    · exact absurd h (by simp)
    · rename_i phrase digits hfh
      split at h
      · exact absurd h (by simp)
      · rename_i st hst
        split at h
        · exact absurd h (by simp)
        · rename_i duration hdur
          split at h
          · exact absurd h (by simp)
          · rename_i hfoot
            dsimp only at h
            split at h
            · exact absurd h (by simp)
            · rename_i hwalk
              have hw2 : (nameWalk ((b.lines.drop 1).dropLast) 0).2 ≠ [] := by
                intro hnil
                exact hwalk ((nameWalk_fst_zero_iff _).2 hnil)
              have hstatus : st =
                  (if setupWord.isPrefixOf phrase then status.error
                    else status.failed) ∧
                  (¬ (setupWord.isPrefixOf phrase : Prop) → phrase = failureWord) := by
                by_cases hsp : (setupWord.isPrefixOf phrase : Prop)
                · rw [if_pos hsp] at hst ⊢
                  cases hst
                  exact ⟨rfl, fun hc => absurd hsp hc⟩
                · rw [if_neg hsp] at hst ⊢
                  by_cases hfw : phrase = failureWord
                  · rw [if_pos hfw] at hst
                    cases hst
                    exact ⟨rfl, fun _ => hfw⟩
                  · rw [if_neg hfw] at hst
                    cases hst
              refine ⟨by omega, phrase, digits, hfh, ?_⟩
              have hfoot2 : b.lines.getLast? = some dashSep := by
                by_contra hcon
                exact hfoot hcon
              repeat' split at h
              all_goals
                cases h <;>
                  exact ⟨hdur, hstatus.1, hstatus.2, hfoot2, hwalk, hw2, rfl⟩

/-- Claim C2, counterexample: parseGinkgoBlock succeeds on a block whose
    two description-hierarchy lines are empty, returning a record whose
    name is the empty string, contradicting the invariant that name is
    never empty. -/
theorem claim2_counterexample :
    parseGinkgoBlock emptyNameBlock = PGB.ok ⟨[], status.failed, 1, [], []⟩ ∧
    ([] : Line).length = 0 := by
  constructor
  · decide
  · rfl

/-- Claim C2, amended: a block on which zero description/location pair
    iterations succeed is rejected with a parse error, never returned as a
    record: on every successful parse the name walk collected at least one
    part and the name is the space-join of those parts.  The name itself,
    however, may be empty (when description lines are blank) and may still
    end in the It marker (only one trailing occurrence is stripped per
    line). -/
theorem claim2_amended (b : ginkgoBlock) (r : parsedGinkgoBlock)
    (h : parseGinkgoBlock b = PGB.ok r) :
    (nameWalk ((b.lines.drop 1).dropLast) 0).2 ≠ [] ∧
    r.name = List.intercalate [' '] (nameWalk ((b.lines.drop 1).dropLast) 0).2 := by
  obtain ⟨_, ph, dg, _, _, _, _, _, _, hw2, hname⟩ := parseGinkgoBlock_ok_inv b r h
  exact ⟨hw2, hname⟩

/-- Witness for the amended claim C2 at a concrete successful block. -/
theorem claim2_amended_witness :
    (nameWalk ((emptyNameBlock.lines.drop 1).dropLast) 0).2 ≠ [] :=
  (claim2_amended emptyNameBlock ⟨[], status.failed, 1, [], []⟩ (by decide)).1

/-- Claim C4: on the concrete fixture block of section 8 of the
    specification, parseGinkgoBlock returns exactly the expected record:
    the space-joined two-level name, status failed, duration 0 seconds,
    the error location before the end marker, and the error message with
    the diagnostic dump and the trailing occurred line elided. -/
theorem claim4_section8_fixture :
    parseGinkgoBlock spec8Block = PGB.ok spec8Expected := by
  decide

/-- Head of a nonempty take is the head of the list. -/
lemma take_eq_cons_head {α : Type} (n : Nat) (l : List α) (x : α) (xs : List α)
    (h : l.take n = x :: xs) (d : α) : l.getD 0 d = x := by
  cases l with
  | nil => simp at h
  | cons y ys =>
    cases n with
    | zero => simp at h
    | succ m =>
      rw [List.take_succ_cons] at h
      cases h
      rfl

/-- Claim C10, counterexample: parseGinkgoBlock is not total; on a block
    whose residual error section holds a single line after the
    leading-blank strip, the Go code's slice lines[0 : len-2] is out of
    range and the function panics, modelled by the oob result. -/
theorem claim10_counterexample : parseGinkgoBlock panicBlock = PGB.oob := by
  decide

/-- Claim C10, amended: parseGinkgoBlock can go out of range, but only in
    the residual error section: on every block whose error section is
    absent, and on every block whose trimmed error section has at least
    three lines and does not open with the literal diagnostic-dump line,
    it returns a record or a parse error and performs no out-of-range
    access. -/
theorem claim10_amended (b : ginkgoBlock)
    (h : ∀ sec, pgbSection b = some sec →
      3 ≤ sec.length ∧ sec.getD 0 [] ≠ unexpectedErrLine) :
    parseGinkgoBlock b ≠ PGB.oob := by
  intro hcon
  unfold parseGinkgoBlock at hcon
  split at hcon
  · exact PGB.noConfusion hcon
  · rename_i hlen
    split at hcon
    · exact PGB.noConfusion hcon
    · rename_i phrase digits hfh
      split at hcon
      · exact PGB.noConfusion hcon
      · rename_i st hst
        split at hcon
        · exact PGB.noConfusion hcon
        · rename_i dur hdur
          split at hcon
          · exact PGB.noConfusion hcon
          · rename_i hfoot
            dsimp only at hcon
            split at hcon
            · exact PGB.noConfusion hcon
            · rename_i hwalk
              split at hcon
              · exact PGB.noConfusion hcon
              · rename_i hlen2
                obtain ⟨h3len, h3unexp⟩ := h _ (by
                  unfold pgbSection
                  simp only [if_neg hlen, hfh, hst, hdur, if_neg hfoot,
                    if_neg hwalk, if_neg hlen2]
                  rfl)
                generalize hsecdef : List.map
                  (fun l => goTrimPrefix l
                    (spaces ((nameWalk (List.drop 1 b.lines).dropLast 0).1 - 2)))
                  (if (List.drop (nameWalk (List.drop 1 b.lines).dropLast 0).1
                      (List.drop 1 b.lines).dropLast).getD 0 [] = [] then
                    List.drop 1 (List.drop
                      (nameWalk (List.drop 1 b.lines).dropLast 0).1
                      (List.drop 1 b.lines).dropLast)
                  else List.drop (nameWalk (List.drop 1 b.lines).dropLast 0).1
                    (List.drop 1 b.lines).dropLast) = sec at hcon h3len h3unexp
                have hne : sec ≠ [] := by
                  intro h0
                  rw [h0] at h3len
                  simp at h3len
                obtain ⟨y, hy⟩ : ∃ y, sec.getLast? = some y := by
                  cases hl : sec.getLast? with
                  | none => exact absurd (List.getLast?_eq_none_iff.1 hl) hne
                  | some y => exact ⟨y, rfl⟩
                rw [hy] at hcon
                dsimp only at hcon
                rw [if_neg (by omega : ¬sec.length < 2)] at hcon
                have htk : sec.take (sec.length - 2) ≠ [] := by
                  intro h0
                  have := congrArg List.length h0
                  rw [List.length_take] at this
                  simp at this
                  omega
                obtain ⟨b0, bs, hbs⟩ := List.exists_cons_of_ne_nil htk
                rw [hbs] at hcon
                dsimp only at hcon
                rw [if_neg (by
                  rw [take_eq_cons_head _ _ _ _ hbs []] at h3unexp
                  exact h3unexp)] at hcon
                exact PGB.noConfusion hcon

/-- Witness for the amended claim C10 at a concrete block with no
    residual error section. -/
theorem claim10_amended_witness : parseGinkgoBlock okBlockW ≠ PGB.oob :=
  claim10_amended okBlockW (by
    intro sec hsec
    have hnone : pgbSection okBlockW = none := by decide
    rw [hnone] at hsec
    exact Option.noConfusion hsec)

lemma takeWhile_digits (D : Line) (y : Char) (ys : Line)
    (hD : ∀ c ∈ D, Char.isDigit c = true) (hy : Char.isDigit y = false) :
    (D ++ y :: ys).takeWhile Char.isDigit = D := by
  induction D with
  | nil => simp [List.takeWhile_cons, hy]
  | cons d ds ihd =>
    have hd : Char.isDigit d = true := hD d (by simp)
    simp only [List.cons_append, List.takeWhile_cons, hd, if_true]
    rw [ihd (fun c hc => hD c (by simp [hc]))]

lemma matchBracketDur_build (D F tail : Line)
    (hD : D ≠ []) (hDd : ∀ c ∈ D, Char.isDigit c = true)
    (hF : F ≠ []) (hFd : ∀ c ∈ F, Char.isDigit c = true) :
    matchBracketDur (' ' :: '[' :: (D ++ '.' :: (F ++ ' ' :: tail))) = some D := by
  unfold matchBracketDur
  dsimp only
  rw [if_pos ⟨rfl, rfl⟩, takeWhile_digits D '.' _ hDd (by decide), if_neg hD,
    List.drop_left]
  dsimp only
  rw [if_pos rfl, takeWhile_digits F ' ' _ hFd (by decide), if_neg hF,
    List.drop_left]
  dsimp only
  rw [if_pos rfl]

lemma isPrefixOf_append_self (p s : Line) : p.isPrefixOf (p ++ s) = true :=
  List.isPrefixOf_iff_prefix.2 (List.prefix_append p s)

lemma findHeader_failed (D F tail : Line)
    (hD : D ≠ []) (hDd : ∀ c ∈ D, Char.isDigit c = true)
    (hF : F ≠ []) (hFd : ∀ c ∈ F, Char.isDigit c = true) :
    findHeader (headerFailedLine D F tail) = some (failureWord, D) := by
  have hmh : matchHeaderAt ('•' :: ' ' ::
      (failureWord ++ (' ' :: '[' :: (D ++ '.' :: (F ++ ' ' :: tail)))))
      = some (failureWord, D) := by
    unfold matchHeaderAt
    dsimp only
    rw [if_pos ⟨rfl, rfl⟩, if_pos (isPrefixOf_append_self failureWord _),
      List.drop_left, matchBracketDur_build D F tail hD hDd hF hFd]
    rfl
  unfold headerFailedLine findHeader
  rw [hmh]

lemma lastBracket_isSome (pre post : Line)
    (hpost : (matchBracketDur post).isSome = true) :
    (lastBracket (pre ++ post)).isSome = true := by
  induction pre with
  | nil =>
    simp only [List.nil_append]
    cases post with
    | nil => simp [matchBracketDur] at hpost
    | cons c rest =>
      unfold lastBracket
      cases hlb : lastBracket rest with
      | some ud => simp
      | none =>
        cases hmb : matchBracketDur (c :: rest) with
        | none => rw [hmb] at hpost; simp at hpost
        | some d => simp
  | cons c pre2 ihp =>
    rw [List.cons_append]
    unfold lastBracket
    cases hlb : lastBracket (pre2 ++ post) with
    | none => rw [hlb] at ihp; simp at ihp
    | some ud => simp

lemma findHeader_setup (sfx D F tail : Line)
    (hD : D ≠ []) (hDd : ∀ c ∈ D, Char.isDigit c = true)
    (hF : F ≠ []) (hFd : ∀ c ∈ F, Char.isDigit c = true) :
    ∃ u d, findHeader (headerSetupLine sfx D F tail) = some (setupWord ++ u, d) := by
  have hsplit : setupWord = failureWord ++ (' ' :: 'i' :: "n Spec Setup".toList) := by
    decide
  have hlbs : (lastBracket
      (sfx ++ (' ' :: '[' :: (D ++ '.' :: (F ++ ' ' :: tail))))).isSome = true := by
    apply lastBracket_isSome
    rw [matchBracketDur_build D F tail hD hDd hF hFd]
    rfl
  obtain ⟨ud, hud⟩ := Option.isSome_iff_exists.1 hlbs
  obtain ⟨u, d⟩ := ud
  refine ⟨u, d, ?_⟩
  have hmh : matchHeaderAt ('•' :: ' ' ::
      (setupWord ++ (sfx ++ (' ' :: '[' :: (D ++ '.' :: (F ++ ' ' :: tail))))))
      = some (setupWord ++ u, d) := by
    unfold matchHeaderAt
    dsimp only
    rw [if_pos ⟨rfl, rfl⟩]
    have hpre1 : failureWord.isPrefixOf
        (setupWord ++ (sfx ++ (' ' :: '[' :: (D ++ '.' :: (F ++ ' ' :: tail)))))
        = true := by
      rw [hsplit, List.append_assoc]
      exact isPrefixOf_append_self failureWord _
    rw [if_pos hpre1]
    have halt1 : matchBracketDur
        ((setupWord ++ (sfx ++ (' ' :: '[' :: (D ++ '.' :: (F ++ ' ' :: tail))))).drop
          failureWord.length) = none := by
      rw [hsplit, List.append_assoc, List.drop_left]
      rfl
    rw [halt1]
    dsimp only
    rw [Option.none_orElse, if_pos (isPrefixOf_append_self setupWord _),
      List.drop_left, hud]
  unfold headerSetupLine findHeader
  rw [hmh]

/-- Claim C3: the round-trip header property.  First, for every block whose
    first line is a plain-failure header carrying a bracketed duration D.F,
    a successful parse returns duration equal to the integer value of the
    digit string D (the fractional digits F are discarded, truncation not
    rounding) and status failed.  Second, for every block whose first line
    is a failure-in-setup header, a successful parse returns status error.
    Third, a first line on which the header regexp finds no match makes
    parseGinkgoBlock return a parse error. -/
theorem claim3_header_roundtrip :
    (∀ (b : ginkgoBlock) (r : parsedGinkgoBlock) (D F tail : Line),
      D ≠ [] → (∀ c ∈ D, Char.isDigit c = true) →
      F ≠ [] → (∀ c ∈ F, Char.isDigit c = true) →
      b.lines.getD 0 [] = headerFailedLine D F tail →
      parseGinkgoBlock b = PGB.ok r →
      r.duration = (natOfDigits D : Int) ∧ r.status = status.failed) ∧
    (∀ (b : ginkgoBlock) (r : parsedGinkgoBlock) (sfx D F tail : Line),
      D ≠ [] → (∀ c ∈ D, Char.isDigit c = true) →
      F ≠ [] → (∀ c ∈ F, Char.isDigit c = true) →
      b.lines.getD 0 [] = headerSetupLine sfx D F tail →
      parseGinkgoBlock b = PGB.ok r →
      r.status = status.error) ∧
    (∀ b : ginkgoBlock, findHeader (b.lines.getD 0 []) = none →
      parseGinkgoBlock b = PGB.err) := by
  refine ⟨?_, ?_, ?_⟩
  · intro b r D F tail hD hDd hF hFd hhead hok
    obtain ⟨_, ph, dg, hfh, hatoi, hstat, _, _, _, _, _⟩ :=
      parseGinkgoBlock_ok_inv b r hok
    rw [hhead, findHeader_failed D F tail hD hDd hF hFd] at hfh
    have hph : ph = failureWord ∧ dg = D := by
      have h2 := Option.some.inj hfh
      exact ⟨((Prod.mk.injEq _ _ _ _ ▸ h2).1).symm, ((Prod.mk.injEq _ _ _ _ ▸ h2).2).symm⟩
    obtain ⟨hph1, hph2⟩ := hph
    subst hph1 hph2
    constructor
    · unfold goAtoi at hatoi
      rw [if_neg hD] at hatoi
      split at hatoi
      · exact (Option.some.inj hatoi).symm
      · exact absurd hatoi (by simp)
    · rw [hstat, if_neg (by decide : ¬(setupWord.isPrefixOf failureWord = true))]
  · intro b r sfx D F tail hD hDd hF hFd hhead hok
    obtain ⟨_, ph, dg, hfh, _, hstat, _, _, _, _, _⟩ :=
      parseGinkgoBlock_ok_inv b r hok
    obtain ⟨u, d, hfh2⟩ := findHeader_setup sfx D F tail hD hDd hF hFd
    rw [hhead, hfh2] at hfh
    have hph : ph = setupWord ++ u := by
      have h2 := Option.some.inj hfh
      exact ((Prod.mk.injEq _ _ _ _ ▸ h2).1).symm
    subst hph
    rw [hstat, if_pos (isPrefixOf_append_self setupWord u)]
  · intro b hnone
    by_cases hl : b.lines.length < 2
    · unfold parseGinkgoBlock
      rw [if_pos hl]
    · unfold parseGinkgoBlock
      rw [if_neg hl, hnone]

/-- Witness for claim C3: a concrete block with header duration 12.5
    parses to duration 12 and status failed. -/
theorem claim3_witness :
    (⟨"a".toList, status.failed, 12, [], []⟩ : parsedGinkgoBlock).duration
        = (natOfDigits "12".toList : Int) ∧
    (⟨"a".toList, status.failed, 12, [], []⟩ : parsedGinkgoBlock).status
        = status.failed :=
  claim3_header_roundtrip.1 headerBlockW _ "12".toList "5".toList "seconds]".toList
    (by decide) (by decide) (by decide) (by decide) (by decide) (by decide)

lemma foldl_skip {α β : Type} (f : β → α → β) (p : α → Bool)
    (hskip : ∀ st x, p x = false → f st x = st) :
    ∀ (l : List α) (st : β), l.foldl f st = (l.filter p).foldl f st := by
  intro l
  induction l with
  | nil => intro st; rfl
  | cons x xs ih =>
    intro st
    cases hp : p x with
    | true => simp [List.filter_cons, hp, ih]
    | false => simp [List.filter_cons, hp, ih, hskip st x hp]

/-- Claim C7: records with status error contribute nothing to
    computeStatsMostFailures; the whole aggregation equals the aggregation
    over only the passed and failed records, so no group's counts ever
    include an error-status record. -/
theorem claim7_error_excluded (results : List ginkgoResult) :
    computeStatsMostFailures results =
      computeStatsMostFailures (results.filter
        (fun t => t.Status = status.passed ∨ t.Status = status.failed)) := by
  unfold computeStatsMostFailures
  rw [foldl_skip cmfStep
    (fun t => t.Status = status.passed ∨ t.Status = status.failed)
    (fun st t hskip => by
      unfold cmfStep
      rw [if_pos]
      simp only [decide_eq_false_iff_not] at hskip
      push_neg at hskip
      exact ⟨hskip.2, hskip.1⟩)
    results ([], [])]

lemma lookupA_updateA_self {β : Type} (m : List (String × β)) (k : String) (v : β) :
    lookupA (updateA m k v) k = some v := by
  induction m with
  | nil => simp [updateA, lookupA]
  | cons p rest ih =>
    obtain ⟨k1, v1⟩ := p
    by_cases h : k1 = k
    · simp [updateA, h, lookupA]
    · simp [updateA, h, lookupA, ih]

lemma lookupA_updateA_ne {β : Type} (m : List (String × β)) (k k' : String) (v : β)
    (h : k ≠ k') : lookupA (updateA m k v) k' = lookupA m k' := by
  induction m with
  | nil =>
    simp only [updateA, lookupA]
    rw [if_neg h]
  | cons p rest ih =>
    obtain ⟨k1, v1⟩ := p
    by_cases h1 : k1 = k
    · subst h1
      simp [updateA, lookupA, fun hc => h hc]
    · simp only [updateA, if_neg h1, lookupA]
      by_cases h2 : k1 = k'
      · simp [h2]
      · simp [h2, ih]

lemma maxFailedDuration_append (l : List ginkgoResult) (t : ginkgoResult)
    (n : String) :
    maxFailedDuration (l ++ [t]) n =
      if t.Name = n ∧ t.Status = status.failed then
        max (maxFailedDuration l n) t.Duration
      else maxFailedDuration l n := by
  unfold maxFailedDuration
  rw [List.filter_append, List.foldl_append]
  by_cases h : t.Name = n ∧ t.Status = status.failed
  · rw [if_pos h]
    simp [List.filter_cons, h]
  · rw [if_neg h]
    simp [List.filter_cons, h]

lemma maxPassedDuration_append (l : List ginkgoResult) (t : ginkgoResult)
    (n : String) :
    maxPassedDuration (l ++ [t]) n =
      if t.Name = n ∧ t.Status = status.passed then
        max (maxPassedDuration l n) t.Duration
      else maxPassedDuration l n := by
  unfold maxPassedDuration
  rw [List.filter_append, List.foldl_append]
  by_cases h : t.Name = n ∧ t.Status = status.passed
  · rw [if_pos h]
    simp [List.filter_cons, h]
  · rw [if_neg h]
    simp [List.filter_cons, h]

lemma maxFailedDuration_zero_of_not_mem (results : List ginkgoResult) (n : String)
    (h : n ∉ results.map ginkgoResult.Name) : maxFailedDuration results n = 0 := by
  unfold maxFailedDuration
  have hf : results.filter (fun t => t.Name = n ∧ t.Status = status.failed) = [] := by
    rw [List.filter_eq_nil_iff]
    intro a ha
    simp only [decide_eq_true_eq, not_and]
    intro hname
    exact absurd (hname ▸ List.mem_map_of_mem ginkgoResult.Name ha) h
  rw [hf]
  rfl

lemma ite_lt_max (a d : Int) : (if a < d then d else a) = max a d := by
  rcases le_or_lt d a with h | h
  · rw [if_neg (not_lt.2 h), max_eq_left h]
  · rw [if_pos h, max_eq_right (le_of_lt h)]

lemma mdInv_step (processed : List ginkgoResult)
    (st : List String × List (String × maxPair)) (t : ginkgoResult)
    (h : mdInv processed st) : mdInv (processed ++ [t]) (mdStep st t) := by
  obtain ⟨h1, h2, h3, h4, h5⟩ := h
  obtain ⟨names, m⟩ := st
  simp only at h1 h2 h3 h4 h5
  unfold mdStep
  by_cases hnew : lookupA m t.Name = none
  · have hnotmem : t.Name ∉ names := by
      rw [← h3]
      simp [hnew]
    have hspec0f : maxFailedDuration processed t.Name = 0 := by
      have h6 := h4 t.Name
      rw [hnew] at h6
      exact h6.symm
    have hspec0p : maxPassedDuration processed t.Name = 0 := by
      have h6 := h5 t.Name
      rw [hnew] at h6
      exact h6.symm
    simp only [if_pos hnew, lookupA_updateA_self, Option.getD_some]
    refine ⟨?_, ?_, ?_, ?_, ?_⟩
    · simpa [List.nodup_append, h1] using hnotmem
    · intro n
      simp [List.mem_append, h2 n]
    · intro n
      by_cases hn : n = t.Name
      · subst hn
        rw [lookupA_updateA_self]
        simp
      · rw [lookupA_updateA_ne _ _ _ _ (fun hc => hn hc.symm),
          lookupA_updateA_ne _ _ _ _ (fun hc => hn hc.symm)]
        rw [h3 n]
        simp [List.mem_append, hn]
    · intro n
      by_cases hn : n = t.Name
      · subst hn
        rw [lookupA_updateA_self, maxFailedDuration_append]
        simp only [Option.getD_some]
        cases ht : t.Status with
        | passed => by_cases hd : ((0 : Int) < t.Duration) <;> simp [hd, hspec0f]
        | failed =>
          by_cases hd : ((0 : Int) < t.Duration)
          · simp [hd, hspec0f, max_eq_right (le_of_lt hd)]
          · simp [hd, hspec0f, max_eq_left (not_lt.1 hd)]
        | error => simp [hspec0f]
      · rw [lookupA_updateA_ne _ _ _ _ (fun hc => hn hc.symm),
          lookupA_updateA_ne _ _ _ _ (fun hc => hn hc.symm),
          maxFailedDuration_append, if_neg (fun hc => hn hc.1.symm)]
        exact h4 n
    · intro n
      by_cases hn : n = t.Name
      · subst hn
        rw [lookupA_updateA_self, maxPassedDuration_append]
        simp only [Option.getD_some]
        cases ht : t.Status with
        | failed => by_cases hd : ((0 : Int) < t.Duration) <;> simp [hd, hspec0p]
        | passed =>
          by_cases hd : ((0 : Int) < t.Duration)
          · simp [hd, hspec0p, max_eq_right (le_of_lt hd)]
          · simp [hd, hspec0p, max_eq_left (not_lt.1 hd)]
        | error => simp [hspec0p]
      · rw [lookupA_updateA_ne _ _ _ _ (fun hc => hn hc.symm),
          lookupA_updateA_ne _ _ _ _ (fun hc => hn hc.symm),
          maxPassedDuration_append, if_neg (fun hc => hn hc.1.symm)]
        exact h5 n
  · have hmem : t.Name ∈ names := by
      rw [← h3]
      cases hl : lookupA m t.Name with
      | none => exact absurd hl hnew
      | some v => simp
    simp only [if_neg hnew]
    refine ⟨h1, ?_, ?_, ?_, ?_⟩
    · intro n
      rw [h2 n]
      simp only [List.map_append, List.map_cons, List.map_nil, List.mem_append,
        List.mem_singleton]
      constructor
      · intro hx
        exact Or.inl hx
      · intro hx
        rcases hx with hx | hx
        · exact hx
        · rw [hx]
          exact (h2 t.Name).1 hmem
    · intro n
      by_cases hn : n = t.Name
      · subst hn
        rw [lookupA_updateA_self]
        simp [hmem]
      · rw [lookupA_updateA_ne _ _ _ _ (fun hc => hn hc.symm)]
        exact h3 n
    · intro n
      by_cases hn : n = t.Name
      · subst hn
        rw [lookupA_updateA_self, maxFailedDuration_append]
        simp only [Option.getD_some]
        cases ht : t.Status with
        | failed =>
          by_cases hd : ((lookupA m t.Name).getD ⟨0, 0⟩).failed < t.Duration
          · simp only [hd, if_true, if_pos (And.intro rfl rfl)]
            rw [← h4 t.Name, max_eq_right (le_of_lt hd)]
            simp
          · simp only [hd, if_false, if_pos (And.intro rfl rfl)]
            rw [← h4 t.Name, max_eq_left (not_lt.1 hd)]
            simp
        | passed =>
          by_cases hd : ((lookupA m t.Name).getD ⟨0, 0⟩).success < t.Duration <;>
            simp [hd, ← h4 t.Name]
        | error =>
          simp [← h4 t.Name]
      · rw [lookupA_updateA_ne _ _ _ _ (fun hc => hn hc.symm),
          maxFailedDuration_append, if_neg (fun hc => hn hc.1.symm)]
        exact h4 n
    · intro n
      by_cases hn : n = t.Name
      · subst hn
        rw [lookupA_updateA_self, maxPassedDuration_append]
        simp only [Option.getD_some]
        cases ht : t.Status with
        | passed =>
          by_cases hd : ((lookupA m t.Name).getD ⟨0, 0⟩).success < t.Duration
          · simp only [hd, if_true, if_pos (And.intro rfl rfl)]
            rw [← h5 t.Name, max_eq_right (le_of_lt hd)]
            simp
          · simp only [hd, if_false, if_pos (And.intro rfl rfl)]
            rw [← h5 t.Name, max_eq_left (not_lt.1 hd)]
            simp
        | failed =>
          by_cases hd : ((lookupA m t.Name).getD ⟨0, 0⟩).failed < t.Duration <;>
            simp [hd, ← h5 t.Name]
        | error =>
          simp [← h5 t.Name]
      · rw [lookupA_updateA_ne _ _ _ _ (fun hc => hn hc.symm),
          maxPassedDuration_append, if_neg (fun hc => hn hc.1.symm)]
        exact h5 n

lemma mdInv_fold (l : List ginkgoResult) :
    ∀ (processed : List ginkgoResult) (st : List String × List (String × maxPair)),
      mdInv processed st → mdInv (processed ++ l) (l.foldl mdStep st) := by
  induction l with
  | nil =>
    intro processed st h
    simpa using h
  | cons t rest ih =>
    intro processed st h
    have hstep := mdInv_step processed st t h
    have hrest := ih (processed ++ [t]) (mdStep st t) hstep
    simpa [List.append_assoc] using hrest

lemma mdInv_init : mdInv [] ([], []) := by
  refine ⟨List.nodup_nil, ?_, ?_, ?_, ?_⟩ <;> intro n <;>
    simp [lookupA, maxFailedDuration, maxPassedDuration]

lemma foldl_max_bound (l : List ginkgoResult) :
    ∀ acc : Int, 0 ≤ acc → acc < 2 ^ 62 →
      (∀ t ∈ l, 0 ≤ t.Duration ∧ t.Duration < 2 ^ 62) →
      0 ≤ l.foldl (fun a t => max a t.Duration) acc ∧
        l.foldl (fun a t => max a t.Duration) acc < 2 ^ 62 := by
  induction l with
  | nil =>
    intro acc h0 hlt _
    exact ⟨h0, hlt⟩
  | cons t rest ih =>
    intro acc h0 hlt hb
    have hbt := hb t (by simp)
    refine ih (max acc t.Duration) (le_max_of_le_left h0) (max_lt hlt hbt.2) ?_
    intro x hx
    exact hb x (by simp [hx])

lemma maxFailedDuration_bound (results : List ginkgoResult) (n : String)
    (hb : ∀ t ∈ results, 0 ≤ t.Duration ∧ t.Duration < 2 ^ 62) :
    0 ≤ maxFailedDuration results n ∧ maxFailedDuration results n < 2 ^ 62 := by
  unfold maxFailedDuration
  refine foldl_max_bound _ 0 le_rfl (by norm_num) ?_
  intro t htm
  exact hb t (List.mem_of_mem_filter htm)

lemma maxPassedDuration_bound (results : List ginkgoResult) (n : String)
    (hb : ∀ t ∈ results, 0 ≤ t.Duration ∧ t.Duration < 2 ^ 62) :
    0 ≤ maxPassedDuration results n ∧ maxPassedDuration results n < 2 ^ 62 := by
  unfold maxPassedDuration
  refine foldl_max_bound _ 0 le_rfl (by norm_num) ?_
  intro t htm
  exact hb t (List.mem_of_mem_filter htm)

lemma wrap64_eq (x : Int) (hlo : -(2 ^ 63) ≤ x) (hhi : x < 2 ^ 63) :
    wrap64 x = x := by
  unfold wrap64
  rw [Int.emod_eq_of_lt (by omega) (by omega)]
  omega

/-- Claim C5: the max-duration report carries exactly one entry per
    distinct test name whose maximum failed duration is nonzero (groups
    that never failed are dropped), and along the output the difference
    maxFailed minus maxPassed is non-decreasing.  The duration bound keeps
    the comparator's 64-bit subtraction exact; 2 to the 62 exceeds any
    realistic duration in seconds. -/
theorem claim5_maxduration (results : List ginkgoResult)
    (hb : ∀ t ∈ results, 0 ≤ t.Duration ∧ t.Duration < 2 ^ 62) :
    ((computeStatsMaxDuration results).map StatsMaxDuration.Name).Nodup ∧
    (∀ n, n ∈ (computeStatsMaxDuration results).map StatsMaxDuration.Name ↔
      maxFailedDuration results n ≠ 0) ∧
    List.Chain' (fun x y => x.MaxDurationFailed - x.MaxDurationPassed ≤
      y.MaxDurationFailed - y.MaxDurationPassed) (computeStatsMaxDuration results) := by
  have hInv : mdInv results (results.foldl mdStep ([], [])) := by
    have h0 := mdInv_fold results [] ([], []) mdInv_init
    simpa using h0
  obtain ⟨h1, h2, h3, h4, h5⟩ := hInv
  unfold computeStatsMaxDuration
  dsimp only
  have hmap : ∀ l : List String,
      (l.map (fun n => (⟨n, ((lookupA (results.foldl mdStep ([], [])).2 n).getD
          ⟨0, 0⟩).success, ((lookupA (results.foldl mdStep ([], [])).2 n).getD
          ⟨0, 0⟩).failed⟩ : StatsMaxDuration))).map StatsMaxDuration.Name = l := by
    intro l
    rw [List.map_map]
    exact List.map_id'' (fun _ => rfl) _
  refine ⟨?_, ?_, ?_⟩
  · rw [hmap]
    exact ((List.perm_insertionSort _ _).nodup_iff).2 (h1.filter _)
  · intro n
    rw [hmap, List.Perm.mem_iff (List.perm_insertionSort _ _), List.mem_filter]
    constructor
    · rintro ⟨hmem, hval⟩
      simp only [decide_eq_true_eq] at hval
      rw [h4 n] at hval
      exact hval
    · intro hval
      refine ⟨?_, by simp [h4 n, hval]⟩
      rw [h2 n]
      by_contra hcon
      exact hval (maxFailedDuration_zero_of_not_mem results n hcon)
  · rw [List.chain'_map]
    refine List.Chain'.imp ?_ (List.Pairwise.chain' (List.sorted_insertionSort _ _))
    intro a b hab
    dsimp only
    unfold mdLe mdKey at hab
    rw [h4 a, h5 a, h4 b, h5 b] at hab
    obtain ⟨hfa0, hfa1⟩ := maxFailedDuration_bound results a hb
    obtain ⟨hpa0, hpa1⟩ := maxPassedDuration_bound results a hb
    obtain ⟨hfb0, hfb1⟩ := maxFailedDuration_bound results b hb
    obtain ⟨hpb0, hpb1⟩ := maxPassedDuration_bound results b hb
    rw [wrap64_eq _ (by omega) (by omega), wrap64_eq _ (by omega) (by omega)] at hab
    rw [h4 a, h5 a, h4 b, h5 b]
    exact hab

/-- Witness for claim C5 at a concrete result list with two failing test
    names. -/
theorem claim5_witness :
    ((computeStatsMaxDuration resultsW).map StatsMaxDuration.Name).Nodup ∧
    ("t2" ∈ (computeStatsMaxDuration resultsW).map StatsMaxDuration.Name ↔
      maxFailedDuration resultsW "t2" ≠ 0) ∧
    List.Chain' (fun x y => x.MaxDurationFailed - x.MaxDurationPassed ≤
      y.MaxDurationFailed - y.MaxDurationPassed) (computeStatsMaxDuration resultsW) := by
  have h := claim5_maxduration resultsW (by decide)
  exact ⟨h.1, h.2.1 "t2", h.2.2⟩

end Prowdig
